import Mathlib

/-!
Verification of the adaptive Krylov time-elapse engine
(`hylaa/time_elapse_krylov.py`).

Shallow embedding: matrices are lists of rows over `ℚ`; the external
numeric kernels (the Arnoldi/Lanczos basis provider `run_iteration`, the
ODE integrator `odeint`, the matrix exponential `expm` and the vector
norm `np.linalg.norm`) are oracle parameters, as the specification treats
them as external library services.  Floating-point exceptional outcomes of
the norm kernel (infinities, NaNs and raised `FloatingPointError`) are
modelled by an explicit result type.  Python runtime failures that the
control flow can reach (assertion failure, reference to an unassigned
local variable) are modelled with `Except`.
-/

set_option maxRecDepth 4000

namespace Hylaa

/-- Dense matrix: list of rows. -/
abbrev Mat := List (List ℚ)

/-- Dot product of two vectors (`np.dot` on 1-d arrays). -/
def dot (a b : List ℚ) : ℚ :=
  (List.zipWith (fun x y => x * y) a b).foldl (fun s x => s + x) 0

/-- Matrix-vector product (`np.dot(m, v)`). -/
def matVec (m : Mat) (v : List ℚ) : List ℚ :=
  m.map (fun row => dot row v)

/-- Column `j` of a matrix, padding missing entries with `0`. -/
def colOf (m : Mat) (j : ℕ) : List ℚ :=
  m.map (fun row => row.getD j 0)

/-- Transpose of a matrix given by its rows. -/
def transposeM (m : Mat) : Mat :=
  (List.range (m.headD []).length).map (fun j => colOf m j)

/-- Matrix-matrix product (`key_dir_mat * init_space_csc`). -/
def matMul (a b : Mat) : Mat :=
  a.map (fun row => (transposeM b).map (fun bcol => dot row bcol))

/-- A zero matrix of the same shape as `m` (`safe_zeros('basis_matrix', rv[0].shape)`). -/
def zerosLike (m : Mat) : Mat :=
  m.map (fun row => row.map (fun _ => (0 : ℚ)))

/-- Unit vector `[1.0 if d == 0 else 0.0 for d in xrange(len)]`. -/
def unitVec (len : ℕ) : List ℚ :=
  (List.range len).map (fun d => if d = 0 then (1 : ℚ) else 0)

/-- Scale every entry of a matrix (`settings.step * h_mat`). -/
def scaleMat (s : ℚ) (m : Mat) : Mat :=
  m.map (fun row => row.map (fun x => s * x))

/-- Outcome of the external norm kernel `np.linalg.norm` under the
`numpy` error mode set by `make_cur_basis_mat_list`: a finite value, a
non-finite value (`inf`/`nan`, detected by the `isinf`/`isnan` checks), or
a raised `FloatingPointError`. -/
inductive NormRes where
  | fin (q : ℚ)
  | nonfin
  | err
deriving DecidableEq

/-- Runtime failures of the Python code reachable from the modelled
control flow: a failed `assert`, or a read of an unassigned local
variable (`UnboundLocalError`). -/
inductive PyErr where
  | assertFail
  | unboundLocal
deriving DecidableEq

deriving instance DecidableEq for Except

/-- `init_krylov`: entry 0 is `key_dir_mat * init_space_csc`; the
remaining `num_steps` entries are preallocated zero matrices of the same
shape. -/
def init_krylov (numSteps : ℕ) (keyDirMat initSpace : Mat) : List Mat :=
  let step_zero_mat := matMul keyDirMat initSpace
  step_zero_mat :: List.replicate numSteps (zerosLike step_zero_mat)

/-- `absolute_error`: `rv = abs(correct[0] - estimate[0])`, then the loop
`for i in xrange(2, len(correct))` folds in `abs(correct[i] - estimate[i])`.
Note the loop starts at index 2, so index 1 never participates. -/
def absolute_error (correct estimate : List ℚ) : ℚ :=
  (List.range' 2 (correct.length - 2)).foldl
    (fun rv i => max rv |correct.getD i 0 - estimate.getD i 0|)
    |correct.getD 0 0 - estimate.getD 0 0|

/-- `relative_error`, parameterised by the norm kernel.  The initial value
`1.0e16` survives whenever the kernel reports a non-finite norm or raises
`FloatingPointError`; a small norm (`< 1e-13`) is returned as an absolute
fallback; otherwise the result is `norm(correct - estimate) / norm(correct)`. -/
def relative_error (normf : List ℚ → NormRes) (correct estimate : List ℚ) : ℚ :=
  match normf correct with
  | NormRes.fin norm =>
      if norm < (1 : ℚ) / 10 ^ 13 then norm
      else
        match normf (List.zipWith (fun x y => x - y) correct estimate) with
        | NormRes.fin abs_error => abs_error / norm
        | NormRes.nonfin => (10 : ℚ) ^ 16
        | NormRes.err => (10 : ℚ) ^ 16
  | NormRes.nonfin => (10 : ℚ) ^ 16
  | NormRes.err => (10 : ℚ) ^ 16

/-- `compute_error`: dispatch between the relative and the absolute error
metric. -/
def compute_error (normf : List ℚ → NormRes) (correct estimate : List ℚ)
    (is_relative : Bool) : ℚ :=
  if is_relative then relative_error normf correct estimate
  else absolute_error correct estimate

/-- Modelled from the spec: "maximum per-coordinate absolute difference
across the vector" — the maximum over every index of the vector, used to
compare the implementation's `absolute_error` against the specification's
words. -/
def spec_max_abs_diff (correct estimate : List ℚ) : ℚ :=
  ((List.range correct.length).map
    (fun i => |correct.getD i 0 - estimate.getD i 0|)).foldl max 0

/-- The per-step comparison of `get_error`: the error between the `k`-order
projected state `pv_mat . full_sim[step]` and the `(k-1)`-order projected
state `small_pv_mat . small_full_sim[step]`. -/
def stepError (useRel : Bool) (normf : List ℚ → NormRes) (pv small_pv : Mat)
    (full_sim small_full_sim : List (List ℚ)) (step : ℕ) : ℚ :=
  compute_error normf (matVec pv (full_sim.getD step []))
    (matVec small_pv (small_full_sim.getD step [])) useRel

/-- Project every post-zero simulation row through the basis:
`np.dot(full_sim[1:], pv_mat.T)` (equivalently the loop filling
`sim[i-1] = np.dot(pv_mat, full_sim[i])`). -/
def projAll (pv : Mat) (full_sim : List (List ℚ)) : Mat :=
  (full_sim.drop 1).map (fun row => matVec pv row)

/-- The sampling loop `for step in [steps-1, steps / 2, 1]` of the
ODE-integration branch: accumulate the error over the three sampled steps,
breaking as soon as the running error exceeds the limit. -/
def sample3 (lim e0 a b c : ℚ) : ℚ :=
  let e1 := max e0 a
  if lim < e1 then e1
  else
    let e2 := max e1 b
    if lim < e2 then e2
    else max e2 c

/-- The full per-step scan `for step in xrange(0, sim.shape[0])` of the
ODE-integration branch: starting from error `e` at index `i` with `cnt`
steps remaining, accumulate `max` of the per-step errors, breaking (second
component `true`) as soon as the running error exceeds the limit. -/
def fullScan (lim : ℚ) (f : ℕ → ℚ) : ℚ → ℕ → ℕ → ℚ × Bool
  | e, _, 0 => (e, false)
  | e, i, cnt + 1 =>
    let e1 := max e (f i)
    if lim < e1 then (e1, true) else fullScan lim f e1 (i + 1) cnt

/-- The ODE-integration branch of `get_error` when a hard error limit is
supplied: force the error above the limit when the first simulation step is
almost all zeros, sample the last / middle / first steps, and only when the
sampled error is below the limit run the full per-step scan, discarding the
projected simulation on abort. -/
def odeintLimitBranch (useRel : Bool) (normf : List ℚ → NormRes) (pv small_pv : Mat)
    (full_sim small_full_sim : List (List ℚ)) (lim : ℚ) : ℚ × Option Mat :=
  let e0 : ℚ :=
    if (full_sim.getD 1 []).all (fun x => |x| < (1 : ℚ) / 10 ^ 9) then lim + 1 else 0
  let steps := full_sim.length
  let E := stepError useRel normf pv small_pv full_sim small_full_sim
  let eS := sample3 lim e0 (E (steps - 1)) (E (steps / 2)) (E 1)
  if eS < lim then
    let scanned := fullScan lim (fun i => E (i + 1)) eS 0 (steps - 1)
    if scanned.2 then (scanned.1, none) else (scanned.1, some (projAll pv full_sim))
  else (eS, none)

/-- One step of the matrix-exponential branch loop
`for step in xrange(2, settings.num_steps + 1)`: advance both columns by one
multiplication with the cached matrix exponentials, fold in the per-step
error and break once the limit (when present) is exceeded. -/
def expmLoop (useRel : Bool) (normf : List ℚ → NormRes) (me sme pv small_pv : Mat)
    (returnSim : Bool) (limit : Option ℚ) :
    ℕ → List ℚ → List ℚ → ℚ → List (List ℚ) → ℚ × Option (List (List ℚ))
  | 0, _, _, error, sim => (error, if returnSim then some sim else none)
  | cnt + 1, cur_col, small_col, error, sim =>
    let cur_col1 := matVec me cur_col
    let small_col1 := matVec sme small_col
    let cur_result := matVec pv cur_col1
    let small_result := matVec small_pv small_col1
    let error1 := max error (compute_error normf cur_result small_result useRel)
    let sim1 := if returnSim then sim ++ [cur_result] else sim
    match limit with
    | some l =>
        if l < error1 then (error1, if returnSim then some sim1 else none)
        else expmLoop useRel normf me sme pv small_pv returnSim limit cnt
          cur_col1 small_col1 error1 sim1
    | none => expmLoop useRel normf me sme pv small_pv returnSim limit cnt
        cur_col1 small_col1 error1 sim1

/-- The matrix-exponential branch of `get_error`: compute `expm(step * H)`
for both orders once, compare the first step, then advance by repeated
multiplication. -/
def expmBranch (useRel : Bool) (normf : List ℚ → NormRes) (expmF : Mat → Mat)
    (stepSize : ℚ) (numSteps : ℕ) (pv small_pv h small_h : Mat)
    (returnSim : Bool) (limit : Option ℚ) : ℚ × Option (List (List ℚ)) :=
  let matrix_exp := expmF (scaleMat stepSize h)
  let cur_col := colOf matrix_exp 0
  let small_matrix_exp := expmF (scaleMat stepSize small_h)
  let small_col := colOf small_matrix_exp 0
  let cur_result := matVec pv cur_col
  let small_result := matVec small_pv small_col
  let error := max 0 (compute_error normf cur_result small_result useRel)
  let sim := if returnSim then [cur_result] else []
  expmLoop useRel normf matrix_exp small_matrix_exp pv small_pv returnSim limit
    (numSteps - 1) cur_col small_col error sim

/-- `get_error`, with the numeric kernels (`odeint` simulation, `expm`,
the norm) passed as oracles.  The `assert h_mat.shape[0] > 1` is modelled
as `PyErr.assertFail`; the read of `small_h_mat` in the matrix-exponential
branch when neither `limit` nor `arnoldi_iter` was given (so the small
matrices were never assigned) is modelled as `PyErr.unboundLocal`. -/
def get_error (useOdeint useRel : Bool) (normf : List ℚ → NormRes)
    (ode : Mat → List ℚ → List (List ℚ)) (expmF : Mat → Mat)
    (stepSize : ℚ) (numSteps : ℕ) (h_mat pv_mat : Mat)
    (arnoldiIter : Option ℕ) (returnSim : Bool) (limit : Option ℚ) :
    Except PyErr (ℚ × Option Mat) :=
  if h_mat.length ≤ 1 then Except.error PyErr.assertFail
  else
    let h := match arnoldiIter with
      | some k => (h_mat.take k).map (fun row => row.take k)
      | none => h_mat
    let pv := match arnoldiIter with
      | some k => pv_mat.map (fun row => row.take k)
      | none => pv_mat
    let smallDefined := limit.isSome || arnoldiIter.isSome
    let small_h := h.dropLast.map (fun row => row.dropLast)
    let small_pv := pv.map (fun row => row.dropLast)
    if useOdeint then
      let start_vec := unitVec h.length
      match limit with
      | none =>
          let full_sim := ode h start_vec
          Except.ok (0, some (projAll pv full_sim))
      | some lim =>
          let full_sim := ode h start_vec
          let small_full_sim := ode small_h start_vec.dropLast
          Except.ok (odeintLimitBranch useRel normf pv small_pv full_sim small_full_sim lim)
    else
      if smallDefined then
        Except.ok (expmBranch useRel normf expmF stepSize numSteps pv small_pv h small_h
          returnSim limit)
      else Except.error PyErr.unboundLocal

/-- Configuration surface consumed by the engine: system dimension
`a_matrix.shape[0]`, step count, step size, backend selection
(`krylov_use_odeint`), error metric (`krylov_use_rel_error`), and the
ones-row flag (`krylov_add_ones_key_dir`). -/
structure KrylovCfg where
  n : ℕ
  numSteps : ℕ
  step : ℚ
  useOdeint : Bool
  useRel : Bool
  addOnes : Bool

/-- Oracles for the external kernels, for one fixed start vector:
`run_iteration` returns `(pv_mat, h_mat)` for a requested iteration count;
`ode` is the `odeint` simulation; `expmF` the matrix exponential; `normf`
the vector norm. -/
structure KrylovOracles where
  runIter : ℕ → Mat × Mat
  ode : Mat → List ℚ → List (List ℚ)
  expmF : Mat → Mat
  normf : List ℚ → NormRes

/-- `arnoldi_sim_with_max_error`: run the basis provider at a fixed
iteration count; when the provider returns a reduced matrix no larger than
requested (the subspace collapsed) drop the error limit and use the smaller
count; trim the probe row of `h_mat` and probe column of `pv_mat`; call
`get_error`; reject a suspicious exact-zero error when the ones row is
disabled; otherwise accept when no limit is active or the error is below
it. -/
def arnoldi_sim_with_max_error (cfg : KrylovCfg) (orc : KrylovOracles)
    (iterations : ℕ) (error_limit : Option ℚ) : Except PyErr (Option Mat × ℕ) :=
  let pv_mat := (orc.runIter iterations).1
  let h_mat := (orc.runIter iterations).2
  let el := if h_mat.length ≤ iterations then none else error_limit
  let iters := if h_mat.length ≤ iterations then h_mat.length else iterations
  let h := h_mat.dropLast
  let pv := pv_mat.map (fun row => row.dropLast)
  match get_error cfg.useOdeint cfg.useRel orc.normf orc.ode orc.expmF cfg.step
      cfg.numSteps h pv none true el with
  | Except.error e => Except.error e
  | Except.ok res =>
    let error := res.1
    let projected_sim := res.2
    let rv : Option Mat :=
      match el with
      | none => projected_sim
      | some l =>
          if error = 0 ∧ cfg.addOnes = false then none
          else if error < l then projected_sim
          else none
    Except.ok (rv, iters)

/-- The clamp at the head of the autotune loop:
`if arnoldi_iter >= n: arnoldi_iter = n`. -/
def clampIter (n k : ℕ) : ℕ := if n ≤ k then n else k

/-- The escalation on rejection: `arnoldi_iter = int(arnoldi_iter * 1.5)`
(exact for the machine-integer ranges in play). -/
def escalate (k : ℕ) : ℕ := 3 * k / 2

/-- One pass of the `while True` body of `arnoldi_sim_autotune`: clamp the
iteration count at the system dimension (disabling the error target when
clamped), then run `arnoldi_sim_with_max_error`.  Returns the attempted
count, the error limit used, and the attempt's outcome. -/
def autotune_step (cfg : KrylovCfg) (orc : KrylovOracles) (k : ℕ)
    (limit : Option ℚ) : ℕ × Option ℚ × Except PyErr (Option Mat × ℕ) :=
  let k1 := clampIter cfg.n k
  let limit1 := if cfg.n ≤ k then none else limit
  (k1, limit1, arnoldi_sim_with_max_error cfg orc k1 limit1)

/-- The sequence of iteration counts attempted by `arnoldi_sim_autotune`
(the values actually passed to `run_iteration`), starting from count `k`
with error limit `limit`; `fuel` bounds the unrolling of the `while True`
loop.  A crash or an acceptance ends the sequence; a rejection escalates
the count of the returned attempt. -/
def autotune_attempts (cfg : KrylovCfg) (orc : KrylovOracles) :
    ℕ → ℕ → Option ℚ → List ℕ
  | 0, _, _ => []
  | fuel + 1, k, limit =>
    match autotune_step cfg orc k limit with
    | (k1, _, Except.error _) => [k1]
    | (k1, _, Except.ok (some _, _)) => [k1]
    | (k1, limit1, Except.ok (none, iters)) =>
        k1 :: autotune_attempts cfg orc fuel (escalate iters) limit1

/-- `arnoldi_sim_autotune` as a function of the initial count and limit:
the projected simulation finally accepted, or `none` when the loop crashed
or ran out of fuel. -/
def arnoldi_sim_autotune (cfg : KrylovCfg) (orc : KrylovOracles) :
    ℕ → ℕ → Option ℚ → Option Mat
  | 0, _, _ => none
  | fuel + 1, k, limit =>
    match autotune_step cfg orc k limit with
    | (_, _, Except.error _) => none
    | (_, _, Except.ok (some sim, _)) => some sim
    | (_, limit1, Except.ok (none, iters)) =>
        arnoldi_sim_autotune cfg orc fuel (escalate iters) limit1

/-- Strip the trailing augmentation coordinate exactly when the ones-row
option is enabled: `sim[i][:-1]` versus `sim[i][:]`. -/
def stripOnes (addOnes : Bool) (v : List ℚ) : List ℚ :=
  if addOnes then v.dropLast else v

/-- Overwrite row `index` (transpose mode, `rv[i+1][index] = piece`) or
column `index` (`rv[i+1][:, index] = piece`) of one result matrix. -/
def assign_one (mat : Mat) (piece : List ℚ) (index : ℕ) (transpose : Bool) : Mat :=
  if transpose then mat.set index piece
  else (List.range mat.length).map (fun r => (mat.getD r []).set index (piece.getD r 0))

/-- The body of the `for i in xrange(len(sim))` loop of `assign_from_sim`:
write trajectory step `i` into result entry `i + 1`. -/
def assign_go (index : ℕ) (addOnes transpose : Bool) :
    List Mat → List (List ℚ) → ℕ → List Mat
  | acc, [], _ => acc
  | acc, s :: rest, i =>
    assign_go index addOnes transpose
      (acc.set (i + 1) (assign_one (acc.getD (i + 1) []) (stripOnes addOnes s) index transpose))
      rest (i + 1)

/-- `assign_from_sim`: the `assert len(sim) == len(rv) - 1` precondition is
modelled by returning `none` on violation; on success each trajectory step
`i` is written into entry `i + 1` at the given column (row in transpose
mode). -/
def assign_from_sim (rv : List Mat) (sim : List (List ℚ)) (index : ℕ)
    (addOnes transpose : Bool) : Option (List Mat) :=
  if (sim.length : ℤ) = (rv.length : ℤ) - 1 then
    some (assign_go index addOnes transpose rv sim 0)
  else none

/-! ## Helper lemmas -/

lemma foldl_max_init_le (g : ℕ → ℚ) :
    ∀ (l : List ℕ) (init : ℚ), init ≤ l.foldl (fun rv i => max rv (g i)) init := by
  intro l
  induction l with
  | nil => intro init; exact le_refl _
  | cons a t ih =>
      intro init
      exact le_trans (le_max_left init (g a)) (ih (max init (g a)))

lemma foldl_max_mem_le (g : ℕ → ℚ) :
    ∀ (l : List ℕ) (init : ℚ) (i : ℕ), i ∈ l →
      g i ≤ l.foldl (fun rv i => max rv (g i)) init := by
  intro l
  induction l with
  | nil => intro init i hi; cases hi
  | cons a t ih =>
      intro init i hi
      rcases List.mem_cons.mp hi with h | h
      · subst h
        exact le_trans (le_max_right init (g i)) (foldl_max_init_le g t _)
      · exact ih _ i h

lemma foldl_max_eq_init_or_mem (g : ℕ → ℚ) :
    ∀ (l : List ℕ) (init : ℚ),
      l.foldl (fun rv i => max rv (g i)) init = init ∨
      ∃ i ∈ l, l.foldl (fun rv i => max rv (g i)) init = g i := by
  intro l
  induction l with
  | nil => intro init; exact Or.inl rfl
  | cons a t ih =>
      intro init
      rcases ih (max init (g a)) with h | ⟨i, hi, hr⟩
      · rcases max_choice init (g a) with hm | hm
        · exact Or.inl (by rw [List.foldl_cons, h, hm])
        · exact Or.inr ⟨a, List.mem_cons_self a t, by rw [List.foldl_cons, h, hm]⟩
      · exact Or.inr ⟨i, List.mem_cons_of_mem a hi, hr⟩

lemma get_error_odeint_some_limit (useRel : Bool) (normf : List ℚ → NormRes)
    (ode : Mat → List ℚ → List (List ℚ)) (expmF : Mat → Mat) (st : ℚ) (ns : ℕ)
    (h_mat pv_mat : Mat) (lim : ℚ) (hh : 1 < h_mat.length) :
    get_error true useRel normf ode expmF st ns h_mat pv_mat none true (some lim) =
      Except.ok (odeintLimitBranch useRel normf pv_mat
        (pv_mat.map (fun row => row.dropLast))
        (ode h_mat (unitVec h_mat.length))
        (ode (h_mat.dropLast.map (fun row => row.dropLast)) (unitVec h_mat.length).dropLast)
        lim) := by
  unfold get_error
  rw [if_neg (by omega)]
  rfl

lemma get_error_odeint_no_limit (useRel : Bool) (normf : List ℚ → NormRes)
    (ode : Mat → List ℚ → List (List ℚ)) (expmF : Mat → Mat) (st : ℚ) (ns : ℕ)
    (h_mat pv_mat : Mat) (hh : 1 < h_mat.length) :
    get_error true useRel normf ode expmF st ns h_mat pv_mat none true none =
      Except.ok (0, some (projAll pv_mat (ode h_mat (unitVec h_mat.length)))) := by
  unfold get_error
  rw [if_neg (by omega)]
  rfl

lemma get_error_expm_no_limit_crash (useRel : Bool) (normf : List ℚ → NormRes)
    (ode : Mat → List ℚ → List (List ℚ)) (expmF : Mat → Mat) (st : ℚ) (ns : ℕ)
    (h_mat pv_mat : Mat) (hh : 1 < h_mat.length) :
    get_error false useRel normf ode expmF st ns h_mat pv_mat none true none =
      Except.error PyErr.unboundLocal := by
  unfold get_error
  rw [if_neg (by omega)]
  rfl

lemma sample3_of_init_gt (lim e0 a b c : ℚ) (h : lim < e0) :
    sample3 lim e0 a b c = max e0 a := by
  unfold sample3
  rw [if_pos (lt_of_lt_of_le h (le_max_left _ _))]

lemma fullScan_no_abort (lim : ℚ) (f : ℕ → ℚ) :
    ∀ (cnt i : ℕ) (e : ℚ), e ≤ lim → (∀ j, j < cnt → f (i + j) ≤ lim) →
      (fullScan lim f e i cnt).2 = false ∧
      e ≤ (fullScan lim f e i cnt).1 ∧
      (fullScan lim f e i cnt).1 ≤ lim ∧
      ∀ j, j < cnt → f (i + j) ≤ (fullScan lim f e i cnt).1 := by
  intro cnt
  induction cnt with
  | zero =>
      intro i e he _
      exact ⟨rfl, le_refl _, he, fun j hj => absurd hj (Nat.not_lt_zero j)⟩
  | succ cnt ih =>
      intro i e he hf
      have hfi : f i ≤ lim := by
        have := hf 0 (Nat.succ_pos cnt)
        rwa [Nat.add_zero] at this
      have he1 : max e (f i) ≤ lim := max_le he hfi
      have hnot : ¬ lim < max e (f i) := not_lt.mpr he1
      have hf1 : ∀ j, j < cnt → f (i + 1 + j) ≤ lim := by
        intro j hj
        have := hf (j + 1) (by omega)
        rwa [show i + (j + 1) = i + 1 + j by omega] at this
      have hrec := ih (i + 1) (max e (f i)) he1 hf1
      have heq : fullScan lim f e i (cnt + 1) = fullScan lim f (max e (f i)) (i + 1) cnt := by
        simp only [fullScan]
        rw [if_neg hnot]
      rw [heq]
      refine ⟨hrec.1, le_trans (le_max_left _ _) hrec.2.1, hrec.2.2.1, ?_⟩
      intro j hj
      rcases Nat.eq_zero_or_pos j with h0 | hpos
      · subst h0
        rw [Nat.add_zero]
        exact le_trans (le_max_right e (f i)) hrec.2.1
      · have := hrec.2.2.2 (j - 1) (by omega)
        rwa [show i + 1 + (j - 1) = i + j by omega] at this

lemma fullScan_abort (lim : ℚ) (f : ℕ → ℚ) :
    ∀ (cnt i : ℕ) (e : ℚ), e ≤ lim → (∃ j, j < cnt ∧ lim < f (i + j)) →
      (fullScan lim f e i cnt).2 = true ∧ lim < (fullScan lim f e i cnt).1 := by
  intro cnt
  induction cnt with
  | zero =>
      intro i e _ hex
      rcases hex with ⟨j, hj, _⟩
      exact absurd hj (Nat.not_lt_zero j)
  | succ cnt ih =>
      intro i e he hex
      by_cases hbr : lim < max e (f i)
      · have heq : fullScan lim f e i (cnt + 1) = (max e (f i), true) := by
          simp only [fullScan]
          rw [if_pos hbr]
        rw [heq]
        exact ⟨rfl, hbr⟩
      · have he1 : max e (f i) ≤ lim := not_lt.mp hbr
        have heq : fullScan lim f e i (cnt + 1) = fullScan lim f (max e (f i)) (i + 1) cnt := by
          simp only [fullScan]
          rw [if_neg hbr]
        rw [heq]
        rcases hex with ⟨j, hj, hgt⟩
        rcases Nat.eq_zero_or_pos j with h0 | hpos
        · subst h0
          rw [Nat.add_zero] at hgt
          exact absurd (le_trans (le_max_right e (f i)) he1) (not_le.mpr hgt)
        · refine ih (i + 1) (max e (f i)) he1 ⟨j - 1, by omega, ?_⟩
          rwa [show i + 1 + (j - 1) = i + j by omega]

lemma set_getD_ne {α : Type} (x d : α) : ∀ (l : List α) (i j : ℕ), i ≠ j →
    (l.set i x).getD j d = l.getD j d := by
  intro l
  induction l with
  | nil => intro i j _; rfl
  | cons a t ih =>
      intro i j hij
      cases i with
      | zero =>
          cases j with
          | zero => exact absurd rfl hij
          | succ j => simp [List.getD_cons_succ]
      | succ i =>
          cases j with
          | zero => simp [List.getD_cons_zero]
          | succ j =>
              simp only [List.set_cons_succ, List.getD_cons_succ]
              exact ih i j (by omega)

lemma set_getD_eq {α : Type} (x d : α) : ∀ (l : List α) (i : ℕ), i < l.length →
    (l.set i x).getD i d = x := by
  intro l
  induction l with
  | nil => intro i h; simp at h
  | cons a t ih =>
      intro i h
      cases i with
      | zero => rfl
      | succ i =>
          simp only [List.set_cons_succ, List.getD_cons_succ]
          exact ih i (by simpa using h)

lemma set_oob {α : Type} (x : α) : ∀ (l : List α) (i : ℕ), l.length ≤ i →
    l.set i x = l := by
  intro l
  induction l with
  | nil => intro i _; rfl
  | cons a t ih =>
      intro i h
      cases i with
      | zero => simp at h
      | succ i =>
          simp only [List.set_cons_succ, List.cons.injEq, true_and]
          exact ih i (by simpa using h)

lemma range_map_getD {α : Type} (f : ℕ → α) (d : α) (n r : ℕ) :
    ((List.range n).map f).getD r d = if r < n then f r else d := by
  by_cases h : r < n
  · rw [if_pos h, List.getD, List.get?_eq_getElem?, List.getElem?_map,
      List.getElem?_range h]
    rfl
  · rw [if_neg h, List.getD, List.get?_eq_getElem?, List.getElem?_eq_none (by simpa using h)]
    rfl

lemma getD_oob {α : Type} (d : α) (l : List α) (r : ℕ) (h : l.length ≤ r) :
    l.getD r d = d := by
  rw [List.getD, List.get?_eq_getElem?, List.getElem?_eq_none h]
  rfl

lemma clampIter_le_n (n k : ℕ) : clampIter n k ≤ n := by
  unfold clampIter
  split <;> omega

lemma le_clampIter_escalate (n c : ℕ) (hc : c ≤ n) : c ≤ clampIter n (escalate c) := by
  unfold clampIter escalate
  split <;> omega

lemma get_error_none_limit_cases (useOdeint useRel : Bool) (normf : List ℚ → NormRes)
    (ode : Mat → List ℚ → List (List ℚ)) (expmF : Mat → Mat) (st : ℚ) (ns : ℕ)
    (h pv : Mat) :
    get_error useOdeint useRel normf ode expmF st ns h pv none true none =
      Except.error PyErr.assertFail ∨
    (∃ s, get_error useOdeint useRel normf ode expmF st ns h pv none true none =
      Except.ok (0, some s)) ∨
    get_error useOdeint useRel normf ode expmF st ns h pv none true none =
      Except.error PyErr.unboundLocal := by
  unfold get_error
  by_cases hl : h.length ≤ 1
  · rw [if_pos hl]
    exact Or.inl rfl
  · rw [if_neg hl]
    cases useOdeint with
    | false => exact Or.inr (Or.inr rfl)
    | true => exact Or.inr (Or.inl ⟨_, rfl⟩)

lemma arnoldi_rejected_iters (cfg : KrylovCfg) (orc : KrylovOracles) (k : ℕ)
    (l : Option ℚ) (iters : ℕ)
    (hr : arnoldi_sim_with_max_error cfg orc k l = Except.ok (none, iters)) :
    iters = k := by
  by_cases hbk : (orc.runIter k).2.length ≤ k
  · unfold arnoldi_sim_with_max_error at hr
    simp only [if_pos hbk] at hr
    rcases get_error_none_limit_cases cfg.useOdeint cfg.useRel orc.normf orc.ode orc.expmF
        cfg.step cfg.numSteps ((orc.runIter k).2.dropLast)
        ((orc.runIter k).1.map (fun row => row.dropLast)) with hc | ⟨s2, hc⟩ | hc
    · rw [hc] at hr
      cases hr
    · rw [hc] at hr
      simp at hr
    · rw [hc] at hr
      cases hr
  · unfold arnoldi_sim_with_max_error at hr
    simp only [if_neg hbk] at hr
    rcases hge : get_error cfg.useOdeint cfg.useRel orc.normf orc.ode orc.expmF
        cfg.step cfg.numSteps ((orc.runIter k).2.dropLast)
        ((orc.runIter k).1.map (fun row => row.dropLast)) none true l with e | res
    · rw [hge] at hr
      cases hr
    · rw [hge] at hr
      simp only [Except.ok.injEq, Prod.mk.injEq] at hr
      exact hr.2.symm

lemma autotune_attempts_head (cfg : KrylovCfg) (orc : KrylovOracles) (fuel k : ℕ)
    (limit : Option ℚ) (hf : fuel ≠ 0) :
    (autotune_attempts cfg orc fuel k limit).head? = some (clampIter cfg.n k) := by
  cases fuel with
  | zero => exact absurd rfl hf
  | succ fuel =>
    simp only [autotune_attempts, autotune_step]
    rcases hr : arnoldi_sim_with_max_error cfg orc (clampIter cfg.n k)
        (if cfg.n ≤ k then none else limit) with e | res
    · rfl
    · rcases res with ⟨os, it⟩
      cases os with
      | none => rfl
      | some s => rfl

/-- C4: for a fixed start vector, the sequence of Krylov iteration counts
attempted by the autotune loop never exceeds the system dimension `N`, is
non-decreasing across attempts, and each rejected attempt with count `k`
is followed by the attempt `floor(k * 1.5)`, clamped at `N`. -/
theorem autotune_attempts_monotone_bounded (cfg : KrylovCfg) (orc : KrylovOracles) :
    ∀ (fuel k : ℕ) (limit : Option ℚ),
      (∀ c ∈ autotune_attempts cfg orc fuel k limit, c ≤ cfg.n) ∧
      List.Chain' (fun c c1 => c1 = clampIter cfg.n (escalate c))
        (autotune_attempts cfg orc fuel k limit) ∧
      List.Chain' (fun c c1 => c ≤ c1) (autotune_attempts cfg orc fuel k limit) := by
  intro fuel
  induction fuel with
  | zero =>
      intro k limit
      refine ⟨?_, ?_, ?_⟩ <;> simp [autotune_attempts]
  | succ fuel ih =>
      intro k limit
      simp only [autotune_attempts, autotune_step]
      rcases hr : arnoldi_sim_with_max_error cfg orc (clampIter cfg.n k)
          (if cfg.n ≤ k then none else limit) with e | res
      · refine ⟨?_, List.chain'_singleton _, List.chain'_singleton _⟩
        intro c hc
        rw [List.mem_singleton] at hc
        subst hc
        exact clampIter_le_n _ _
      · rcases res with ⟨os, it⟩
        cases os with
        | some s =>
            refine ⟨?_, List.chain'_singleton _, List.chain'_singleton _⟩
            intro c hc
            rw [List.mem_singleton] at hc
            subst hc
            exact clampIter_le_n _ _
        | none =>
            have hit : it = clampIter cfg.n k :=
              arnoldi_rejected_iters cfg orc (clampIter cfg.n k)
                (if cfg.n ≤ k then none else limit) it hr
            subst hit
            obtain ⟨ihmem, ihchain, ihle⟩ :=
              ih (escalate (clampIter cfg.n k)) (if cfg.n ≤ k then none else limit)
            refine ⟨?_, ?_, ?_⟩
            · intro c hc
              rcases List.mem_cons.mp hc with h | h
              · subst h
                exact clampIter_le_n _ _
              · exact ihmem c h
            · refine List.chain'_cons'.mpr ⟨?_, ihchain⟩
              intro b hb
              rcases Nat.eq_zero_or_pos fuel with h0 | hpos
              · subst h0
                simp [autotune_attempts] at hb
              · rw [autotune_attempts_head cfg orc fuel _ _ (by omega)] at hb
                rw [Option.mem_some_iff] at hb
                subst hb
                rfl
            · refine List.chain'_cons'.mpr ⟨?_, ihle⟩
              intro b hb
              rcases Nat.eq_zero_or_pos fuel with h0 | hpos
              · subst h0
                simp [autotune_attempts] at hb
              · rw [autotune_attempts_head cfg orc fuel _ _ (by omega)] at hb
                rw [Option.mem_some_iff] at hb
                subst hb
                exact le_clampIter_escalate cfg.n _ (clampIter_le_n _ _)

lemma assign_go_length (index : ℕ) (aO tr : Bool) :
    ∀ (sim : List (List ℚ)) (acc : List Mat) (i : ℕ),
      (assign_go index aO tr acc sim i).length = acc.length := by
  intro sim
  induction sim with
  | nil => intro acc i; rfl
  | cons s rest ih =>
      intro acc i
      simp only [assign_go]
      rw [ih, List.length_set]

lemma assign_go_getD_le (index : ℕ) (aO tr : Bool) :
    ∀ (sim : List (List ℚ)) (acc : List Mat) (i j : ℕ), j ≤ i →
      (assign_go index aO tr acc sim i).getD j [] = acc.getD j [] := by
  intro sim
  induction sim with
  | nil => intro acc i j _; rfl
  | cons s rest ih =>
      intro acc i j hj
      simp only [assign_go]
      rw [ih _ _ j (by omega), set_getD_ne _ _ _ _ _ (by omega)]

lemma assign_go_content (index : ℕ) (aO tr : Bool) :
    ∀ (sim : List (List ℚ)) (acc : List Mat) (i m : ℕ), m < sim.length →
      i + 1 + m < acc.length →
      (assign_go index aO tr acc sim i).getD (i + 1 + m) [] =
        assign_one (acc.getD (i + 1 + m) []) (stripOnes aO (sim.getD m [])) index tr := by
  intro sim
  induction sim with
  | nil =>
      intro acc i m hm _
      simp at hm
  | cons s rest ih =>
      intro acc i m hm hlen
      simp only [assign_go]
      cases m with
      | zero =>
          rw [Nat.add_zero]
          rw [assign_go_getD_le index aO tr rest _ (i + 1) (i + 1) (le_refl _)]
          rw [set_getD_eq _ _ _ _ (by omega)]
          rfl
      | succ m =>
          rw [show i + 1 + (m + 1) = (i + 1) + 1 + m by omega]
          rw [ih _ (i + 1) m (by simpa using hm) (by rw [List.length_set]; omega)]
          rw [set_getD_ne _ _ _ _ _ (by omega)]
          rfl

lemma assign_one_entry_frame (mat : Mat) (piece : List ℚ) (index : ℕ) (tr : Bool)
    (r c : ℕ) (htr : tr = true → r ≠ index) (hntr : tr = false → c ≠ index) :
    ((assign_one mat piece index tr).getD r []).getD c 0 =
      ((mat.getD r []).getD c 0) := by
  cases tr with
  | true =>
      have hr := htr rfl
      rw [show assign_one mat piece index true = mat.set index piece from rfl]
      rw [set_getD_ne _ _ _ _ _ (Ne.symm hr)]
  | false =>
      have hc := hntr rfl
      rw [show assign_one mat piece index false =
        (List.range mat.length).map
          (fun r => (mat.getD r []).set index (piece.getD r 0)) from rfl]
      rw [range_map_getD]
      by_cases hrl : r < mat.length
      · rw [if_pos hrl, set_getD_ne _ _ _ _ _ (Ne.symm hc)]
      · rw [if_neg hrl, getD_oob ([] : List ℚ) mat r (by omega)]

lemma assign_go_entry_frame (index : ℕ) (aO tr : Bool) (r c : ℕ)
    (htr : tr = true → r ≠ index) (hntr : tr = false → c ≠ index) :
    ∀ (sim : List (List ℚ)) (acc : List Mat) (i k : ℕ),
      (((assign_go index aO tr acc sim i).getD k []).getD r []).getD c 0 =
        ((acc.getD k []).getD r []).getD c 0 := by
  intro sim
  induction sim with
  | nil => intro acc i k; rfl
  | cons s rest ih =>
      intro acc i k
      simp only [assign_go]
      rw [ih]
      by_cases hk : k = i + 1
      · subst hk
        by_cases hl : i + 1 < acc.length
        · rw [set_getD_eq _ _ _ _ hl]
          exact assign_one_entry_frame _ _ _ _ _ _ htr hntr
        · rw [set_oob _ _ _ (by omega)]
      · rw [set_getD_ne _ _ _ _ _ (by omega)]

lemma autotune_accepted_exists (cfg : KrylovCfg) (orc : KrylovOracles) :
    ∀ (fuel k : ℕ) (limit : Option ℚ) (s : Mat),
      arnoldi_sim_autotune cfg orc fuel k limit = some s →
      ∃ ki li it, arnoldi_sim_with_max_error cfg orc ki li = Except.ok (some s, it) := by
  intro fuel
  induction fuel with
  | zero =>
      intro k limit s h
      cases h
  | succ fuel ih =>
      intro k limit s h
      simp only [arnoldi_sim_autotune, autotune_step] at h
      rcases hr : arnoldi_sim_with_max_error cfg orc (clampIter cfg.n k)
          (if cfg.n ≤ k then none else limit) with e | res
      · rw [hr] at h
        cases h
      · rcases res with ⟨os, it⟩
        cases os with
        | some sm =>
            rw [hr] at h
            simp only [Option.some.injEq] at h
            subst h
            exact ⟨clampIter cfg.n k, (if cfg.n ≤ k then none else limit), it, hr⟩
        | none =>
            rw [hr] at h
            exact ih _ _ s h

/-! ## Claim theorems -/

/-- C1: for any configured step count `n ≥ 1`, the result sequence built by
`init_krylov` has length exactly `n + 1`, and its entry `0` equals
`KeyDirectionMatrix x InitialSpace`, fixed at construction. -/
theorem init_krylov_len_and_entry_zero (numSteps : ℕ) (keyDirMat initSpace : Mat)
    (h : 1 ≤ numSteps) :
    (init_krylov numSteps keyDirMat initSpace).length = numSteps + 1 ∧
    (init_krylov numSteps keyDirMat initSpace).getD 0 [] = matMul keyDirMat initSpace := by
  constructor
  · simp [init_krylov]
  · rfl

theorem init_krylov_len_and_entry_zero_witness :
    1 ≤ 1 ∧
    ((init_krylov 1 [[(2:ℚ)]] [[3]]).length = 2 ∧
     (init_krylov 1 [[(2:ℚ)]] [[3]]).getD 0 [] = matMul [[(2:ℚ)]] [[3]]) :=
  ⟨le_refl 1, init_krylov_len_and_entry_zero 1 [[(2:ℚ)]] [[3]] (le_refl 1)⟩

/-- C2: `relative_error` returns `norm(c - e) / norm(c)` when the norm
kernel reports a finite `norm(c) ≥ 1e-13` and a finite difference norm;
returns `norm(c)` itself when `norm(c) < 1e-13`; and substitutes the large
sentinel `1.0e16` whenever the kernel reports a non-finite norm or raises
`FloatingPointError`.  Every returned value is a rational, hence finite:
the non-finite kernel outcomes are exactly the ones mapped to the
sentinel. -/
theorem relative_error_cases (normf : List ℚ → NormRes) (c e : List ℚ) :
    (∀ n, normf c = NormRes.fin n → n < (1 : ℚ) / 10 ^ 13 →
      relative_error normf c e = n) ∧
    (∀ n a, normf c = NormRes.fin n → ¬ n < (1 : ℚ) / 10 ^ 13 →
      normf (List.zipWith (fun x y => x - y) c e) = NormRes.fin a →
      relative_error normf c e = a / n) ∧
    (normf c = NormRes.nonfin ∨ normf c = NormRes.err →
      relative_error normf c e = (10 : ℚ) ^ 16) ∧
    (∀ n, normf c = NormRes.fin n → ¬ n < (1 : ℚ) / 10 ^ 13 →
      (normf (List.zipWith (fun x y => x - y) c e) = NormRes.nonfin ∨
       normf (List.zipWith (fun x y => x - y) c e) = NormRes.err) →
      relative_error normf c e = (10 : ℚ) ^ 16) := by
  refine ⟨?_, ?_, ?_, ?_⟩
  · intro n hn hlt
    simp only [relative_error, hn]
    rw [if_pos hlt]
  · intro n a hn hlt ha
    simp only [relative_error, hn]
    rw [if_neg hlt]
    simp only [ha]
  · intro h
    rcases h with h | h <;> simp only [relative_error, h]
  · intro n hn hlt h
    simp only [relative_error, hn]
    rw [if_neg hlt]
    rcases h with h | h <;> simp only [h]

theorem relative_error_cases_witness :
    (fun _ : List ℚ => NormRes.fin (7 : ℚ)) [3, 4] = NormRes.fin 7 ∧
    ¬ (7 : ℚ) < (1 : ℚ) / 10 ^ 13 ∧
    relative_error (fun _ => NormRes.fin (7 : ℚ)) [3, 4] [0, 0] = 7 / 7 :=
  ⟨rfl, by norm_num,
    (relative_error_cases (fun _ => NormRes.fin (7 : ℚ)) [3, 4] [0, 0]).2.1 7 7 rfl
      (by norm_num) rfl⟩

/-- C3 counterexample: `absolute_error` is not the maximum per-coordinate
absolute difference over every index — on `correct = [0, 5]`,
`estimate = [0, 0]` it returns `0` while the coordinate at index 1 differs
by `5`, because the loop runs over `xrange(2, len(correct))` and skips
index 1. -/
theorem absolute_error_not_spec_max :
    absolute_error [(0 : ℚ), 5] [0, 0] = 0 ∧
    spec_max_abs_diff [(0 : ℚ), 5] [0, 0] = 5 ∧
    absolute_error [(0 : ℚ), 5] [0, 0] ≠ spec_max_abs_diff [(0 : ℚ), 5] [0, 0] := by
  refine ⟨?_, ?_, ?_⟩ <;> with_unfolding_all decide

/-- C3 amended: for every pair of equal-length, nonempty vectors,
`absolute_error` returns the maximum per-coordinate absolute difference
over index 0 and all indices from 2 onward — every coordinate index other
than index 1 participates in the maximum, and index 1 is skipped. -/
theorem absolute_error_max_skipping_index_one (c e : List ℚ) (hne : c ≠ []) :
    (∀ i, i < c.length → i ≠ 1 →
      |c.getD i 0 - e.getD i 0| ≤ absolute_error c e) ∧
    ∃ i, i < c.length ∧ i ≠ 1 ∧ absolute_error c e = |c.getD i 0 - e.getD i 0| := by
  have hlen : 0 < c.length := List.length_pos.mpr hne
  constructor
  · intro i hi hi1
    rcases Nat.eq_zero_or_pos i with h0 | hpos
    · subst h0
      exact foldl_max_init_le (fun i => |c.getD i 0 - e.getD i 0|) _ _
    · have h2 : 2 ≤ i := by omega
      have hmem : i ∈ List.range' 2 (c.length - 2) := by
        rw [List.mem_range'_1]
        omega
      exact foldl_max_mem_le (fun i => |c.getD i 0 - e.getD i 0|) _ _ i hmem
  · rcases foldl_max_eq_init_or_mem (fun i => |c.getD i 0 - e.getD i 0|)
      (List.range' 2 (c.length - 2)) |c.getD 0 0 - e.getD 0 0| with h | ⟨i, hi, hr⟩
    · exact ⟨0, hlen, by omega, h⟩
    · rw [List.mem_range'_1] at hi
      exact ⟨i, by omega, by omega, hr⟩

/-- C9: in ODE-integration mode with a hard error limit, `get_error` first
evaluates the error only at the last, middle and first time steps (the
value `S` of the sampling loop); if the sampled error exceeds the limit the
call returns `(S, none)` — a rejection computed from the samples alone.
Only when the sampled error is below the limit does it proceed to the
per-step check of every step: if every step's error is within the limit
the projected trajectory is returned with the accumulated error, and the
full scan is aborted the moment any step's error exceeds the limit,
returning no trajectory. -/
theorem get_error_odeint_limit_sampling
    (useRel : Bool) (normf : List ℚ → NormRes) (ode : Mat → List ℚ → List (List ℚ))
    (expmF : Mat → Mat) (st : ℚ) (ns : ℕ) (h_mat pv_mat : Mat) (lim : ℚ)
    (fs sfs : List (List ℚ)) (E : ℕ → ℚ) (S : ℚ)
    (hh : 1 < h_mat.length)
    (hfs : fs = ode h_mat (unitVec h_mat.length))
    (hsfs : sfs = ode (h_mat.dropLast.map (fun row => row.dropLast))
      (unitVec h_mat.length).dropLast)
    (hE : E = stepError useRel normf pv_mat (pv_mat.map (fun row => row.dropLast)) fs sfs)
    (hS : S = sample3 lim
      (if (fs.getD 1 []).all (fun x => |x| < (1 : ℚ) / 10 ^ 9) then lim + 1 else 0)
      (E (fs.length - 1)) (E (fs.length / 2)) (E 1)) :
    (lim < S →
      get_error true useRel normf ode expmF st ns h_mat pv_mat none true (some lim) =
        Except.ok (S, none)) ∧
    (S < lim → (∀ j, j < fs.length - 1 → E (j + 1) ≤ lim) →
      ∃ err, get_error true useRel normf ode expmF st ns h_mat pv_mat none true (some lim) =
          Except.ok (err, some (projAll pv_mat fs)) ∧
        S ≤ err ∧ err ≤ lim ∧ ∀ j, j < fs.length - 1 → E (j + 1) ≤ err) ∧
    (S < lim → (∃ j, j < fs.length - 1 ∧ lim < E (j + 1)) →
      ∃ err, get_error true useRel normf ode expmF st ns h_mat pv_mat none true (some lim) =
          Except.ok (err, none) ∧ lim < err) := by
  subst hS hE hsfs hfs
  rw [get_error_odeint_some_limit useRel normf ode expmF st ns h_mat pv_mat lim hh]
  simp only [odeintLimitBranch]
  refine ⟨?_, ?_, ?_⟩
  · intro h
    rw [if_neg (lt_asymm h)]
  · intro h hall
    rw [if_pos h]
    have hscan := fullScan_no_abort lim
      (fun i =>
        stepError useRel normf pv_mat (pv_mat.map (fun row => row.dropLast))
          (ode h_mat (unitVec h_mat.length))
          (ode (h_mat.dropLast.map (fun row => row.dropLast)) (unitVec h_mat.length).dropLast)
          (i + 1))
      ((ode h_mat (unitVec h_mat.length)).length - 1) 0 _ (le_of_lt h)
      (by intro j hj; rw [Nat.zero_add]; exact hall j hj)
    rw [if_neg (by rw [hscan.1]; exact Bool.false_ne_true)]
    refine ⟨_, rfl, hscan.2.1, hscan.2.2.1, ?_⟩
    intro j hj
    have := hscan.2.2.2 j hj
    rwa [Nat.zero_add] at this
  · intro h hex
    rw [if_pos h]
    have hscan := fullScan_abort lim
      (fun i =>
        stepError useRel normf pv_mat (pv_mat.map (fun row => row.dropLast))
          (ode h_mat (unitVec h_mat.length))
          (ode (h_mat.dropLast.map (fun row => row.dropLast)) (unitVec h_mat.length).dropLast)
          (i + 1))
      ((ode h_mat (unitVec h_mat.length)).length - 1) 0 _ (le_of_lt h)
      (by rcases hex with ⟨j, hj, hgt⟩; exact ⟨j, hj, by rw [Nat.zero_add]; exact hgt⟩)
    rw [if_pos hscan.1]
    exact ⟨_, rfl, hscan.2⟩

/-- Oracles for the closed instances below: the reduced matrix is the
identity, the integrator returns a fixed three-row simulation whose last
step disagrees between the two orders, and the norm kernel is unused
(absolute error metric). -/
def odeW9 : Mat → List ℚ → List (List ℚ) :=
  fun m _ => if m.length = 2 then [[0, 0], [1, 0], [9, 0]] else [[0], [1], [0]]

theorem get_error_odeint_limit_sampling_witness :
    (1 < ([[ (1:ℚ), 0], [0, 1]] : Mat).length) ∧ (1 : ℚ) < 9 ∧
    get_error true false (fun _ => NormRes.fin 0) odeW9 (fun m => m) 1 2
      [[(1:ℚ), 0], [0, 1]] [[(1:ℚ), 0]] none true (some 1) = Except.ok (9, none) :=
  ⟨by norm_num, by norm_num,
    (get_error_odeint_limit_sampling false (fun _ => NormRes.fin 0) odeW9 (fun m => m) 1 2
        [[(1:ℚ), 0], [0, 1]] [[(1:ℚ), 0]] 1
        [[0, 0], [1, 0], [9, 0]] [[0], [1], [0]] _ 9
        (by norm_num) (by with_unfolding_all decide) (by with_unfolding_all decide) rfl
        (by with_unfolding_all decide)).1 (by norm_num)⟩

/-- C10: in ODE-integration mode with a hard error limit, whenever every
entry of the simulation's first time step has absolute value below `1e-9`,
the attempt is rejected: no trajectory is returned and the reported error
is forced above the limit, whatever the per-step comparison errors are. -/
theorem first_step_near_zero_rejects
    (useRel : Bool) (normf : List ℚ → NormRes) (ode : Mat → List ℚ → List (List ℚ))
    (expmF : Mat → Mat) (st : ℚ) (ns : ℕ) (h_mat pv_mat : Mat) (lim : ℚ)
    (hh : 1 < h_mat.length)
    (hz : ((ode h_mat (unitVec h_mat.length)).getD 1 []).all
      (fun x => |x| < (1 : ℚ) / 10 ^ 9) = true) :
    ∃ err, get_error true useRel normf ode expmF st ns h_mat pv_mat none true (some lim) =
      Except.ok (err, none) ∧ lim < err := by
  rw [get_error_odeint_some_limit useRel normf ode expmF st ns h_mat pv_mat lim hh]
  simp only [odeintLimitBranch]
  rw [if_pos hz]
  rw [sample3_of_init_gt lim (lim + 1) _ _ _ (by linarith)]
  have hgt : lim < max (lim + 1)
      (stepError useRel normf pv_mat (pv_mat.map (fun row => row.dropLast))
        (ode h_mat (unitVec h_mat.length))
        (ode (h_mat.dropLast.map (fun row => row.dropLast)) (unitVec h_mat.length).dropLast)
        ((ode h_mat (unitVec h_mat.length)).length - 1)) :=
    lt_of_lt_of_le (by linarith) (le_max_left _ _)
  rw [if_neg (lt_asymm hgt)]
  exact ⟨_, rfl, hgt⟩

/-- Integrator oracle whose first post-zero step is exactly zero. -/
def odeW10 : Mat → List ℚ → List (List ℚ) :=
  fun m _ => if m.length = 2 then [[1, 0], [0, 0], [5, 0]] else [[1], [0], [5]]

theorem first_step_near_zero_rejects_witness :
    (1 < ([[ (1:ℚ), 0], [0, 1]] : Mat).length) ∧
    (((odeW10 [[(1:ℚ), 0], [0, 1]] (unitVec ([[(1:ℚ), 0], [0, 1]] : Mat).length)).getD 1 []).all
      (fun x => |x| < (1 : ℚ) / 10 ^ 9) = true) ∧
    ∃ err, get_error true false (fun _ => NormRes.fin 0) odeW10 (fun m => m) 1 2
        [[(1:ℚ), 0], [0, 1]] [[(1:ℚ), 0]] none true (some 1) =
      Except.ok (err, none) ∧ (1 : ℚ) < err :=
  ⟨by norm_num, by with_unfolding_all decide,
    first_step_near_zero_rejects false (fun _ => NormRes.fin 0) odeW10 (fun m => m) 1 2
      [[(1:ℚ), 0], [0, 1]] [[(1:ℚ), 0]] 1 (by norm_num) (by with_unfolding_all decide)⟩

/-- A two-dimensional system in matrix-exponential mode
(`krylov_use_odeint = False`) with an error target configured. -/
def cfgClampExpm : KrylovCfg :=
  { n := 2, numSteps := 2, step := 1, useOdeint := false, useRel := false, addOnes := false }

/-- Basis-provider oracle for the two-dimensional system: a full-rank
`3 x 3` reduced matrix, so no early Arnoldi termination occurs. -/
def orcClampExpm : KrylovOracles :=
  { runIter := fun _ => ([[0, 0, 0]], [[1, 0, 0], [0, 1, 0], [0, 0, 1]])
    ode := fun _ sv => [sv, sv, sv]
    expmF := fun m => m
    normf := fun _ => NormRes.fin 0 }

/-- C5 (failing input): with requested iteration count `4 ≥ N = 2` the
autotune loop does clamp the count to `k = N = 2` and does disable the
error target, but in matrix-exponential mode `get_error` then reads
`small_h_mat`, which was only assigned under
`limit is not None or arnoldi_iter is not None` — so instead of accepting
the trajectory unconditionally with no error computation, the code raises
`UnboundLocalError`. -/
theorem autotune_clamp_expm_unbound :
    autotune_step cfgClampExpm orcClampExpm 4 (some 1) =
      (2, none, Except.error PyErr.unboundLocal) := by
  with_unfolding_all decide

/-- C6: if the error target is active (`some l`, not cleared by an early
Arnoldi termination), the computed error is exactly zero and the ones-row
augmentation is disabled, then `arnoldi_sim_with_max_error` returns no
trajectory, forcing the autotune loop to escalate the iteration count. -/
theorem zero_error_without_ones_rejects (cfg : KrylovCfg) (orc : KrylovOracles)
    (iterations : ℕ) (l : ℚ) (s : ℚ × Option Mat)
    (hbd : iterations < (orc.runIter iterations).2.length)
    (hge : get_error cfg.useOdeint cfg.useRel orc.normf orc.ode orc.expmF cfg.step
      cfg.numSteps ((orc.runIter iterations).2.dropLast)
      ((orc.runIter iterations).1.map (fun row => row.dropLast)) none true (some l) =
      Except.ok s)
    (hzero : s.1 = 0) (hones : cfg.addOnes = false) :
    arnoldi_sim_with_max_error cfg orc iterations (some l) =
      Except.ok (none, iterations) := by
  obtain ⟨error, psim⟩ := s
  simp only at hzero
  subst hzero
  have hnb : ¬ ((orc.runIter iterations).2.length ≤ iterations) := not_le.mpr hbd
  simp only [arnoldi_sim_with_max_error, if_neg hnb]
  rw [hge]
  show Except.ok (if (0 : ℚ) = 0 ∧ cfg.addOnes = false then none
    else if (0 : ℚ) < l then psim else none, iterations) =
    Except.ok (none, iterations)
  rw [if_pos ⟨rfl, hones⟩]

/-- A configuration in ODE-integration mode where every projected result
is zero, so the computed error is exactly zero. -/
def cfgZeroErr : KrylovCfg :=
  { n := 100, numSteps := 2, step := 1, useOdeint := true, useRel := false, addOnes := false }

/-- Oracle whose key-direction projection rows are all zero: both orders
project every simulation step to the zero vector, so every per-step error
is exactly zero while the raw simulation itself is not near zero. -/
def orcZeroErr : KrylovOracles :=
  { runIter := fun _ => ([[0, 0, 0, 0]], [[1, 0, 0, 0], [0, 1, 0, 0], [0, 0, 1, 0], [0, 0, 0, 1]])
    ode := fun _ sv => [sv, sv, sv]
    expmF := fun m => m
    normf := fun _ => NormRes.fin 0 }

theorem zero_error_without_ones_rejects_witness :
    (2 < (orcZeroErr.runIter 2).2.length) ∧
    (get_error cfgZeroErr.useOdeint cfgZeroErr.useRel orcZeroErr.normf orcZeroErr.ode
      orcZeroErr.expmF cfgZeroErr.step cfgZeroErr.numSteps
      ((orcZeroErr.runIter 2).2.dropLast)
      ((orcZeroErr.runIter 2).1.map (fun row => row.dropLast)) none true (some 1) =
      Except.ok ((0 : ℚ), some [[0], [0]])) ∧
    ((0 : ℚ), some ([[0], [0]] : Mat)).1 = 0 ∧ cfgZeroErr.addOnes = false ∧
    arnoldi_sim_with_max_error cfgZeroErr orcZeroErr 2 (some 1) = Except.ok (none, 2) :=
  ⟨by with_unfolding_all decide, by with_unfolding_all decide, rfl, rfl,
    zero_error_without_ones_rejects cfgZeroErr orcZeroErr 2 1 ((0 : ℚ), some [[0], [0]])
      (by with_unfolding_all decide) (by with_unfolding_all decide) rfl rfl⟩

/-- C7: `assign_from_sim` fails its precondition (the assert) exactly when
the trajectory length differs from `num_steps = len(rv) - 1`; on a
trajectory of the right length it writes trajectory step `i` into entry
`i + 1` of the result sequence at the given column index (row index in
transpose mode), stripping the trailing augmentation coordinate exactly
when the ones-row option is enabled. -/
theorem assign_from_sim_spec (rv : List Mat) (sim : List (List ℚ)) (index : ℕ)
    (addOnes transpose : Bool) :
    ((sim.length : ℤ) ≠ (rv.length : ℤ) - 1 →
      assign_from_sim rv sim index addOnes transpose = none) ∧
    ((sim.length : ℤ) = (rv.length : ℤ) - 1 →
      ∃ rv1, assign_from_sim rv sim index addOnes transpose = some rv1 ∧
        rv1.length = rv.length ∧
        ∀ i, i < sim.length →
          rv1.getD (i + 1) [] =
            assign_one (rv.getD (i + 1) []) (stripOnes addOnes (sim.getD i []))
              index transpose ∧
          (transpose = true → index < (rv.getD (i + 1) []).length →
            (rv1.getD (i + 1) []).getD index [] = stripOnes addOnes (sim.getD i [])) ∧
          (transpose = false → ∀ r, r < (rv.getD (i + 1) []).length →
            index < ((rv.getD (i + 1) []).getD r []).length →
            ((rv1.getD (i + 1) []).getD r []).getD index 0 =
              (stripOnes addOnes (sim.getD i [])).getD r 0)) := by
  constructor
  · intro h
    unfold assign_from_sim
    rw [if_neg h]
  · intro h
    have hlen : sim.length + 1 = rv.length := by omega
    refine ⟨assign_go index addOnes transpose rv sim 0, ?_, ?_, ?_⟩
    · unfold assign_from_sim
      rw [if_pos h]
    · exact assign_go_length index addOnes transpose sim rv 0
    · intro i hi
      have hcont := assign_go_content index addOnes transpose sim rv 0 i hi (by omega)
      rw [show 0 + 1 + i = i + 1 by omega] at hcont
      refine ⟨hcont, ?_, ?_⟩
      · intro htr hidx
        subst htr
        rw [hcont]
        rw [show assign_one (rv.getD (i + 1) []) (stripOnes addOnes (sim.getD i []))
          index true = (rv.getD (i + 1) []).set index (stripOnes addOnes (sim.getD i []))
          from rfl]
        exact set_getD_eq _ _ _ _ hidx
      · intro htr r hr hidx
        subst htr
        rw [hcont]
        rw [show assign_one (rv.getD (i + 1) []) (stripOnes addOnes (sim.getD i []))
          index false = (List.range (rv.getD (i + 1) []).length).map
            (fun r => ((rv.getD (i + 1) []).getD r []).set index
              ((stripOnes addOnes (sim.getD i [])).getD r 0)) from rfl]
        rw [range_map_getD, if_pos hr]
        exact set_getD_eq _ _ _ _ hidx

theorem assign_from_sim_spec_witness :
    ((1 : ℤ) = (2 : ℤ) - 1) ∧
    (∃ rv1, assign_from_sim [[[(1 : ℚ), 2]], [[3, 4]]] [[9]] 0 false false = some rv1 ∧
      rv1.length = ([[[(1 : ℚ), 2]], [[3, 4]]] : List Mat).length ∧
      ∀ i, i < ([[(9 : ℚ)]] : List (List ℚ)).length →
        rv1.getD (i + 1) [] =
          assign_one (([[[(1 : ℚ), 2]], [[3, 4]]] : List Mat).getD (i + 1) [])
            (stripOnes false (([[(9 : ℚ)]] : List (List ℚ)).getD i [])) 0 false ∧
        (false = true → 0 < (([[[(1 : ℚ), 2]], [[3, 4]]] : List Mat).getD (i + 1) []).length →
          (rv1.getD (i + 1) []).getD 0 [] =
            stripOnes false (([[(9 : ℚ)]] : List (List ℚ)).getD i [])) ∧
        (false = false → ∀ r,
          r < (([[[(1 : ℚ), 2]], [[3, 4]]] : List Mat).getD (i + 1) []).length →
          0 < ((([[[(1 : ℚ), 2]], [[3, 4]]] : List Mat).getD (i + 1) []).getD r []).length →
          ((rv1.getD (i + 1) []).getD r []).getD 0 0 =
            (stripOnes false (([[(9 : ℚ)]] : List (List ℚ)).getD i [])).getD r 0)) :=
  ⟨by norm_num,
    (assign_from_sim_spec [[[(1 : ℚ), 2]], [[3, 4]]] [[9]] 0 false false).2 (by norm_num)⟩

/-- C8: each assembler call modifies only the owned column (row in
transpose mode) of the result sequence: entry 0 is returned unchanged and
every entry at a row/column other than the owned index is left unchanged
in every step matrix; and every trajectory the autotune loop hands to the
assembler was accepted by some `arnoldi_sim_with_max_error` call — no
rejected attempt's trajectory is ever produced. -/
theorem assign_frame_and_accepted_only :
    (∀ (rv : List Mat) (sim : List (List ℚ)) (index : ℕ) (addOnes transpose : Bool)
      (rv1 : List Mat),
      assign_from_sim rv sim index addOnes transpose = some rv1 →
      rv1.getD 0 [] = rv.getD 0 [] ∧
      ∀ k r c, (transpose = true → r ≠ index) → (transpose = false → c ≠ index) →
        ((rv1.getD k []).getD r []).getD c 0 = ((rv.getD k []).getD r []).getD c 0) ∧
    (∀ (cfg : KrylovCfg) (orc : KrylovOracles) (fuel k0 : ℕ) (limit : Option ℚ) (s : Mat),
      arnoldi_sim_autotune cfg orc fuel k0 limit = some s →
      ∃ ki li it, arnoldi_sim_with_max_error cfg orc ki li = Except.ok (some s, it)) := by
  constructor
  · intro rv sim index addOnes transpose rv1 hass
    unfold assign_from_sim at hass
    split at hass
    · simp only [Option.some.injEq] at hass
      subst hass
      constructor
      · exact assign_go_getD_le index addOnes transpose sim rv 0 0 (le_refl 0)
      · intro k r c htr hntr
        exact assign_go_entry_frame index addOnes transpose r c htr hntr sim rv 0 k
    · cases hass
  · intro cfg orc fuel k0 limit s h
    exact autotune_accepted_exists cfg orc fuel k0 limit s h

/-- The zero-error configuration with the ones row enabled, so the
zero-error rejection does not fire and the trajectory is accepted. -/
def cfgAccept : KrylovCfg :=
  { n := 100, numSteps := 2, step := 1, useOdeint := true, useRel := false, addOnes := true }

theorem assign_frame_and_accepted_only_witness :
    (assign_from_sim [[[(1 : ℚ), 2]], [[3, 4]]] [[5]] 1 false false =
      some [[[(1 : ℚ), 2]], [[3, 5]]]) ∧
    (([[[(1 : ℚ), 2]], [[3, 5]]] : List Mat).getD 0 [] =
      ([[[(1 : ℚ), 2]], [[3, 4]]] : List Mat).getD 0 []) ∧
    ((([[[(1 : ℚ), 2]], [[3, 5]]] : List Mat).getD 1 []).getD 0 []).getD 0 0 =
      ((([[[(1 : ℚ), 2]], [[3, 4]]] : List Mat).getD 1 []).getD 0 []).getD 0 0 ∧
    (arnoldi_sim_autotune cfgAccept orcZeroErr 1 2 (some 1) = some [[0], [0]]) ∧
    ∃ ki li it, arnoldi_sim_with_max_error cfgAccept orcZeroErr ki li =
      Except.ok (some [[0], [0]], it) :=
  ⟨by with_unfolding_all decide,
    (assign_frame_and_accepted_only.1 [[[(1 : ℚ), 2]], [[3, 4]]] [[5]] 1 false false
      [[[(1 : ℚ), 2]], [[3, 5]]] (by with_unfolding_all decide)).1,
    (assign_frame_and_accepted_only.1 [[[(1 : ℚ), 2]], [[3, 4]]] [[5]] 1 false false
      [[[(1 : ℚ), 2]], [[3, 5]]] (by with_unfolding_all decide)).2 1 0 0
      (fun hf => by cases hf) (fun _ => by omega),
    by with_unfolding_all decide,
    assign_frame_and_accepted_only.2 cfgAccept orcZeroErr 1 2 (some 1) [[0], [0]]
      (by with_unfolding_all decide)⟩

theorem absolute_error_max_skipping_index_one_witness :
    ([(1 : ℚ), 2, 3] ≠ []) ∧
    ((∀ i, i < ([(1 : ℚ), 2, 3]).length → i ≠ 1 →
      |([(1 : ℚ), 2, 3]).getD i 0 - ([(0 : ℚ), 0, 0]).getD i 0| ≤
        absolute_error [(1 : ℚ), 2, 3] [0, 0, 0]) ∧
     ∃ i, i < ([(1 : ℚ), 2, 3]).length ∧ i ≠ 1 ∧
       absolute_error [(1 : ℚ), 2, 3] [0, 0, 0] =
         |([(1 : ℚ), 2, 3]).getD i 0 - ([(0 : ℚ), 0, 0]).getD i 0|) :=
  ⟨by simp, absolute_error_max_skipping_index_one [(1 : ℚ), 2, 3] [0, 0, 0] (by simp)⟩

end Hylaa
